import Mathlib

/-!
Verification of the swipe-engagement engine of the `schoen.macht.geld`
backend, shallowly embedded from `src/backend/src/app/swipe_token.py`,
`src/backend/src/app/routers/swipe.py` and `src/backend/src/app/config.py`.

Python machine values are modelled as follows: unbounded `int` as `Int`
(or `Nat` where the source value is a count used as a slice bound),
`float` as `ℚ` (all arithmetic the claims touch is sign/ratio reasoning
where IEEE rounding is immaterial), `str` as `String` / `List Char`,
`bytes` as `List Nat` with entries below 256, and fallible decoding as
`Option`.  Calls to `time.time()` become an explicit `now` argument, and
the two `random.uniform` draws of `calculate_price_delta` become explicit
arguments, constrained by range hypotheses where a claim needs them.
-/

/-- `SwipeDirection` from `src/backend/src/app/schemas/stock.py`. -/
inductive SwipeDirection where
  | LEFT
  | RIGHT
deriving DecidableEq

/-- The swipe-related fields of `Settings` from
`src/backend/src/app/config.py`, with the source's default values.
`swipe_bucket_count` and `swipe_streak_threshold` are counts used as a
slice bound resp. a length threshold, so they are carried as `Nat`. -/
structure Settings where
  swipe_bucket_duration : Int := 20
  swipe_bucket_count : Nat := 30
  swipe_base_percent_min : ℚ := 1/100
  swipe_base_percent_max : ℚ := 3/100
  swipe_random_multiplier_min : ℚ := 1/2
  swipe_random_multiplier_max : ℚ := 2
  swipe_streak_threshold : Nat := 5
  swipe_streak_penalty : ℚ := 7/10

/-- The module-level `settings = Settings()` instance of `config.py`
(all defaults).  The Python functions read this global; the Lean
embeddings take the `Settings` record as an explicit argument and the
concrete claims are stated at this instance. -/
def settings : Settings := {}

/-- `SwipeStats` from `swipe_token.py`: analyzed statistics from swipe
buckets, with the source's field defaults.  Totals are `Int` because the
bucket counters are Python `int`s that, for a token forged via `decode`,
can be negative. -/
structure SwipeStats where
  total_left : Int := 0
  total_right : Int := 0
  recent_left : Int := 0
  recent_right : Int := 0
  streak_direction : Option SwipeDirection := none
  streak_length : Nat := 0
  pickiness_ratio : ℚ := 1/2
deriving DecidableEq

/-- `SwipeToken` from `swipe_token.py`: `ts` is the last-update epoch
timestamp, `buckets` the list of `(left, right)` swipe-count pairs,
most recent first. -/
structure SwipeToken where
  ts : Int
  buckets : List (Int × Int) := []
deriving DecidableEq

namespace SwipeToken

/-- Increment the left or right counter of bucket 0
(`swipe_token.py` lines 72-77).  The empty case is unreachable in
`update`, which guarantees at least one bucket before incrementing. -/
def bumpHead (direction : SwipeDirection) : List (Int × Int) → List (Int × Int)
  | [] => []
  | (l, r) :: rest =>
    match direction with
    | SwipeDirection.LEFT => (l + 1, r) :: rest
    | SwipeDirection.RIGHT => (l, r + 1) :: rest

/-- `SwipeToken.update` from `swipe_token.py`: shift buckets by the
number of elapsed bucket durations (`Int.fdiv` is Python's floor
division `//`), trim to `swipe_bucket_count`, ensure at least one
bucket, then record the new swipe in bucket 0. -/
def update (s : Settings) (t : SwipeToken) (direction : SwipeDirection)
    (now : Int) : SwipeToken :=
  let elapsed := now - t.ts
  let bucketsToShift := Int.fdiv elapsed s.swipe_bucket_duration
  if bucketsToShift > 0 then
    let buckets := (List.replicate bucketsToShift.toNat ((0 : Int), (0 : Int)) ++
      t.buckets).take s.swipe_bucket_count
    if buckets = [] then { ts := now, buckets := bumpHead direction [(0, 0)] }
    else { ts := now, buckets := bumpHead direction buckets }
  else
    if t.buckets = [] then { ts := now, buckets := bumpHead direction [(0, 0)] }
    else { ts := t.ts, buckets := bumpHead direction t.buckets }

/-- A sequence of `update` calls, each with its own direction and call
time. -/
def applyUpdates (s : Settings) (t : SwipeToken)
    (steps : List (SwipeDirection × Int)) : SwipeToken :=
  steps.foldl (fun tok step => update s tok step.1 step.2) t

/-- The streak-detection loop of `SwipeToken.analyze`
(`swipe_token.py` lines 103-126): walk the buckets from index 0,
extending a single-direction streak and stopping at the first empty
bucket, mixed bucket, or direction change.  Returns the accumulated
`(streak_dir, streak_len)` at the point the Python loop exits. -/
def streakLoop : List (Int × Int) → Option SwipeDirection → Nat →
    Option SwipeDirection × Nat
  | [], dir, len => (dir, len)
  | (l, r) :: rest, dir, len =>
    if l = 0 ∧ r = 0 then (dir, len)
    else if l > 0 ∧ r = 0 then
      match dir with
      | some SwipeDirection.LEFT => streakLoop rest dir (len + 1)
      | none => streakLoop rest (some SwipeDirection.LEFT) 1
      | some SwipeDirection.RIGHT => (dir, len)
    else if r > 0 ∧ l = 0 then
      match dir with
      | some SwipeDirection.RIGHT => streakLoop rest dir (len + 1)
      | none => streakLoop rest (some SwipeDirection.RIGHT) 1
      | some SwipeDirection.LEFT => (dir, len)
    else (dir, len)

/-- `SwipeToken.analyze` from `swipe_token.py`: totals over all buckets,
recent totals over the first 3 buckets, pickiness ratio, and the streak,
which is only reported when its length reaches
`swipe_streak_threshold`. -/
def analyze (s : Settings) (t : SwipeToken) : SwipeStats :=
  if t.buckets = [] then {}
  else
    let totalLeft := t.buckets.foldl (fun acc b => acc + b.1) (0 : Int)
    let totalRight := t.buckets.foldl (fun acc b => acc + b.2) (0 : Int)
    let recentLeft := (t.buckets.take 3).foldl (fun acc b => acc + b.1) (0 : Int)
    let recentRight := (t.buckets.take 3).foldl (fun acc b => acc + b.2) (0 : Int)
    let total := totalLeft + totalRight
    let pickiness : ℚ :=
      if total > 0 then (totalLeft : ℚ) / (total : ℚ) else 1/2
    let walk := streakLoop t.buckets none 0
    { total_left := totalLeft
      total_right := totalRight
      recent_left := recentLeft
      recent_right := recentRight
      streak_direction := if walk.2 ≥ s.swipe_streak_threshold then walk.1 else none
      streak_length := if walk.2 ≥ s.swipe_streak_threshold then walk.2 else 0
      pickiness_ratio := pickiness }

end SwipeToken

namespace SwipeToken

/-! ### The token codec

`SwipeToken.encode` is
`base64.urlsafe_b64encode(self.model_dump_json().encode()).decode()`:
pydantic's compact JSON serialization (`{"ts":<int>,"buckets":[[l,r],...]}`
with no whitespace) of the token, UTF-8 encoded (the JSON text is pure
ASCII, so the bytes are the code points), then URL-safe base64.
`SwipeToken.decode` inverts this, degrading to a fresh token on any
failure.  The JSON reader below models the fragment of
`model_validate_json` relevant to strings produced by `encode`:
pydantic's general JSON parser additionally tolerates whitespace, key
reordering and unknown keys, which only enlarges the set of accepted
non-canonical strings and is not touched by any claim. -/

/-- The ASCII character of a decimal digit. -/
def digitChar (d : Nat) : Char := Char.ofNat (48 + d)

/-- Decimal digits of a natural number, most significant first; the
fuel argument makes the recursion structural (`fuel > n` suffices). -/
def natDigitsAux : Nat → Nat → List Char
  | 0, _ => []
  | fuel + 1, n =>
    if n < 10 then [digitChar n]
    else natDigitsAux fuel (n / 10) ++ [digitChar (n % 10)]

/-- Decimal digits of a natural number. -/
def natDigits (n : Nat) : List Char := natDigitsAux (n + 1) n

/-- JSON serialization of an integer (as emitted for a Python `int`). -/
def intChars (i : Int) : List Char :=
  if i < 0 then Char.ofNat 45 :: natDigits i.natAbs else natDigits i.toNat

/-- JSON serialization of one `(left, right)` bucket: `[l,r]`. -/
def pairChars (p : Int × Int) : List Char :=
  Char.ofNat 91 :: (intChars p.1 ++ Char.ofNat 44 :: (intChars p.2 ++ [Char.ofNat 93]))

/-- Comma-separated JSON serialization of the bucket list body. -/
def pairsChars : List (Int × Int) → List Char
  | [] => []
  | [p] => pairChars p
  | p :: rest => pairChars p ++ Char.ofNat 44 :: pairsChars rest

/-- The literal prefix of the serialized token: an opening brace and
the quoted `ts` key with its colon. -/
def litTs : List Char := "\x7b\"ts\":".data

/-- The literal between the timestamp and the bucket array: a comma,
the quoted `buckets` key, a colon and the opening bracket. -/
def litBuckets : List Char := ",\"buckets\":[".data

/-- The closing brace of the serialized token. -/
def litBrace : List Char := "\x7d".data

/-- The closing bracket of the bucket array followed by the closing
brace. -/
def litBracketBrace : List Char := "]\x7d".data

/-- `model_dump_json` output of a token, as a character list:
`{"ts":<ts>,"buckets":[<pairs>]}`. -/
def jsonChars (t : SwipeToken) : List Char :=
  litTs ++ intChars t.ts ++ litBuckets ++ pairsChars t.buckets ++ litBracketBrace

/-- Character of a base64 sextet, URL-safe alphabet
(`A-Z`, `a-z`, `0-9`, `-`, `_`). -/
def sextetChar (n : Nat) : Char :=
  if n < 26 then Char.ofNat (65 + n)
  else if n < 52 then Char.ofNat (97 + (n - 26))
  else if n < 62 then Char.ofNat (48 + (n - 52))
  else if n = 62 then Char.ofNat 45
  else Char.ofNat 95

/-- Sextet value of a base64 character, URL-safe alphabet. -/
def sextetVal (c : Char) : Option Nat :=
  if 65 ≤ c.toNat ∧ c.toNat ≤ 90 then some (c.toNat - 65)
  else if 97 ≤ c.toNat ∧ c.toNat ≤ 122 then some (c.toNat - 97 + 26)
  else if 48 ≤ c.toNat ∧ c.toNat ≤ 57 then some (c.toNat - 48 + 52)
  else if c = Char.ofNat 45 then some 62
  else if c = Char.ofNat 95 then some 63
  else none

/-- URL-safe base64 encoding of a byte list
(`base64.urlsafe_b64encode`), with `=` padding. -/
def b64encode : List Nat → List Char
  | [] => []
  | [a] => [sextetChar (a / 4), sextetChar (a % 4 * 16), '=', '=']
  | [a, b] =>
    [sextetChar (a / 4), sextetChar (a % 4 * 16 + b / 16), sextetChar (b % 16 * 4), '=']
  | a :: b :: c :: rest =>
    sextetChar (a / 4) :: sextetChar (a % 4 * 16 + b / 16) ::
      sextetChar (b % 16 * 4 + c / 64) :: sextetChar (c % 64) :: b64encode rest

/-- URL-safe base64 decoding of a character list
(`base64.urlsafe_b64decode`): quads of alphabet characters, the final
quad optionally padded; anything else is rejected.  (CPython's lenient
mode additionally discards stray non-alphabet characters before
decoding; that only widens the success set on non-canonical inputs and
no claim depends on it.) -/
def b64decode : List Char → Option (List Nat)
  | [] => some []
  | c1 :: c2 :: c3 :: c4 :: rest =>
    if rest = [] ∧ c3 = '=' ∧ c4 = '=' then do
      let d1 ← sextetVal c1
      let d2 ← sextetVal c2
      pure [d1 * 4 + d2 / 16]
    else if rest = [] ∧ c4 = '=' then do
      let d1 ← sextetVal c1
      let d2 ← sextetVal c2
      let d3 ← sextetVal c3
      pure [d1 * 4 + d2 / 16, d2 % 16 * 16 + d3 / 4]
    else do
      let d1 ← sextetVal c1
      let d2 ← sextetVal c2
      let d3 ← sextetVal c3
      let d4 ← sextetVal c4
      let tail ← b64decode rest
      pure ((d1 * 4 + d2 / 16) :: (d2 % 16 * 16 + d3 / 4) :: (d3 % 4 * 64 + d4) :: tail)
  | _ => none

/-- `SwipeToken.encode` from `swipe_token.py`. -/
def encode (t : SwipeToken) : String :=
  String.mk (b64encode ((jsonChars t).map Char.toNat))

/-- Consume an expected literal prefix, returning the remainder. -/
def parseLit : List Char → List Char → Option (List Char)
  | [], rest => some rest
  | _ :: _, [] => none
  | l :: ls, c :: cs => if c = l then parseLit ls cs else none

/-- Split a leading run of decimal digits from the input. -/
def takeDigits : List Char → List Char × List Char
  | [] => ([], [])
  | c :: cs =>
    if c.isDigit then
      let r := takeDigits cs
      (c :: r.1, r.2)
    else ([], c :: cs)

/-- Numeric value of a digit run. -/
def natFromDigits (ds : List Char) : Nat :=
  ds.foldl (fun acc c => acc * 10 + (c.toNat - 48)) 0

/-- Read a JSON natural number (one or more digits). -/
def parseNum (cs : List Char) : Option (Nat × List Char) :=
  match takeDigits cs with
  | ([], _) => none
  | (ds, rest) => some (natFromDigits ds, rest)

/-- Read a JSON integer (optional minus sign, then digits). -/
def parseInt (cs : List Char) : Option (Int × List Char) :=
  match cs with
  | c :: rest =>
    if c = Char.ofNat 45 then (parseNum rest).map fun r => (-(r.1 : Int), r.2)
    else (parseNum cs).map fun r => ((r.1 : Int), r.2)
  | [] => none

/-- Read one JSON bucket `[l,r]` (pydantic `tuple[int, int]`: exactly
two items). -/
def parsePair : List Char → Option ((Int × Int) × List Char)
  | c :: cs =>
    if c = Char.ofNat 91 then do
      let (a, cs1) ← parseInt cs
      match cs1 with
      | c1 :: cs2 =>
        if c1 = Char.ofNat 44 then do
          let (b, cs3) ← parseInt cs2
          match cs3 with
          | c2 :: cs4 =>
            if c2 = Char.ofNat 93 then some ((a, b), cs4) else none
          | [] => none
        else none
      | [] => none
    else none
  | [] => none

/-- Read `,[l,r]` items until the closing `]`, the first pair already
read; the fuel bounds the recursion (the input length suffices, since
every step consumes at least the separator). -/
def parsePairSeq : Nat → (Int × Int) → List Char →
    Option (List (Int × Int) × List Char)
  | fuel, p, cs =>
    match cs with
    | c :: cs1 =>
      if c = Char.ofNat 93 then some ([p], cs1)
      else if c = Char.ofNat 44 then
        match fuel with
        | 0 => none
        | fuel + 1 => do
          let (q, cs2) ← parsePair cs1
          let (qs, rest) ← parsePairSeq fuel q cs2
          pure (p :: qs, rest)
      else none
    | [] => none

/-- Read a JSON bucket list body up to and including the closing `]`. -/
def parseBuckets (cs : List Char) : Option (List (Int × Int) × List Char) :=
  match cs with
  | c :: cs1 =>
    if c = Char.ofNat 93 then some ([], cs1)
    else do
      let (p, cs2) ← parsePair cs
      parsePairSeq cs2.length p cs2
  | [] => none

/-- The fragment of pydantic's `model_validate_json` for `SwipeToken`:
`{"ts":<int>}` (the `buckets` field has default `[]`) or
`{"ts":<int>,"buckets":[[l,r],...]}`. -/
def parseToken (cs : List Char) : Option SwipeToken := do
  let cs1 ← parseLit litTs cs
  let (ts, cs2) ← parseInt cs1
  if cs2 = litBrace then some { ts := ts }
  else do
    let cs3 ← parseLit litBuckets cs2
    let (bs, cs4) ← parseBuckets cs3
    if cs4 = litBrace then some { ts := ts, buckets := bs } else none

/-- `SwipeToken.decode` from `swipe_token.py`: absent or empty input,
or any failure of base64 or JSON validation, degrades to a fresh token
`{ts := now, buckets := []}`.  (In the source the failure branch is the
`except (ValueError, ValidationError)` handler: `urlsafe_b64decode`
signals failures as `ValueError`/`binascii.Error`, a subclass, and
`model_validate_json` as `ValidationError`, so `decode` is total.) -/
def decode (tokenStr : Option String) (now : Int) : SwipeToken :=
  match tokenStr with
  | none => { ts := now }
  | some str =>
    if str = "" then { ts := now }
    else
      match b64decode str.data with
      | none => { ts := now }
      | some bytes =>
        match parseToken (bytes.map Char.ofNat) with
        | some t => t
        | none => { ts := now }

end SwipeToken

/-- `calculate_price_delta` from `swipe_token.py`.  The two
`random.uniform` draws are passed explicitly as `base_percent`
(drawn from `[swipe_base_percent_min, swipe_base_percent_max]`) and
`random_mult` (drawn from
`[swipe_random_multiplier_min, swipe_random_multiplier_max]`). -/
def calculate_price_delta (s : Settings) (current_price : ℚ)
    (direction : SwipeDirection) (stats : SwipeStats)
    (base_percent random_mult : ℚ) : ℚ :=
  let baseDelta := current_price * base_percent
  let streakMult : ℚ :=
    if stats.streak_direction = some direction then s.swipe_streak_penalty else 1
  let pickinessMult : ℚ :=
    if direction = SwipeDirection.RIGHT ∧ stats.pickiness_ratio > 3/5 then
      1 + (stats.pickiness_ratio - 1/2)
    else if direction = SwipeDirection.LEFT ∧ stats.pickiness_ratio < 2/5 then
      1 + (1/2 - stats.pickiness_ratio)
    else 1
  let delta := baseDelta * random_mult * streakMult * pickinessMult
  if direction = SwipeDirection.LEFT then -delta else delta

/-! ### The swipe endpoint, `src/backend/src/app/routers/swipe.py`

The `async` handler is embedded as a sequential function: the per-ticker
`asyncio.Lock` serializes the critical section, so each request's effect
on the stock table is that of the straight-line body below.  The
embedding additionally records, in `SwipeEffects`, whether the request
entered the per-ticker lock (`_get_ticker_lock` + `async with lock`) and
which rows it wrote, so that claims about the error path can talk about
"no mutation" and "gate acquired". -/

/-- `ChangeType` from `src/backend/src/app/models/stock.py`. -/
inductive ChangeType where
  | INITIAL
  | SWIPE_UP
  | SWIPE_DOWN
  | RANDOM
  | ADMIN
deriving DecidableEq

/-- The `Stock` row fields the swipe handler reads.  In the source,
`Stock.price` is a property returning the price of the most recent
`PriceEvent` (or `stock_base_price` if there is none); the embedding
carries that current price directly. -/
structure Stock where
  ticker : String
  price : ℚ
deriving DecidableEq

/-- The `PriceEvent` row fields the swipe handler writes
(`id`/`created_at` are database-generated). -/
structure PriceEvent where
  ticker : String
  price : ℚ
  change_type : ChangeType
deriving DecidableEq

/-- Modelled from the spec: `SwipeRequest` is imported by the router
from `app.schemas.stock` but is missing from the sources; spec section 6
gives the request as ticker (string), direction (LEFT|RIGHT) and the
optional previous swipe token, and the router accesses exactly the
fields `ticker`, `direction` and `swipe_token`. -/
structure SwipeRequest where
  ticker : String
  direction : SwipeDirection
  swipe_token : Option String

/-- The response the router constructs (`routers/swipe.py` lines
88-93).  (The `SwipeResponse` schema in `schemas/stock.py` names its
token field `token` while the router passes `swipe_token=`; the
embedding follows the router's construction.) -/
structure SwipeResponse where
  ticker : String
  new_price : ℚ
  delta : ℚ
  swipe_token : String
deriving DecidableEq

/-- Observable effects of one swipe request: whether the per-ticker
lock was entered, the price events appended, and whether the stock row
was written (`session.add(stock)`). -/
structure SwipeEffects where
  lockAcquired : Bool
  priceEvents : List PriceEvent
  stockTouched : Bool
deriving DecidableEq

/-- The `swipe` endpoint from `routers/swipe.py` over an abstract stock
table `db`.  `now` stands for the `time.time()` reads during token
decode/update, and `basePercent`/`randomMult` for the two
`random.uniform` draws inside `calculate_price_delta`.  The source
acquires the per-ticker lock before looking the ticker up, so
`lockAcquired` is `true` on every path, including the 404 path. -/
def swipe (db : String → Option Stock) (request : SwipeRequest) (now : Int)
    (basePercent randomMult : ℚ) : Except Nat SwipeResponse × SwipeEffects :=
  let token := SwipeToken.decode request.swipe_token now
  let token := SwipeToken.update settings token request.direction now
  let stats := SwipeToken.analyze settings token
  match db request.ticker with
  | none =>
    (Except.error 404,
     { lockAcquired := true, priceEvents := [], stockTouched := false })
  | some stock =>
    let delta := calculate_price_delta settings stock.price request.direction
      stats basePercent randomMult
    let newPrice := max 0 (stock.price + delta)
    let changeType :=
      if request.direction = SwipeDirection.RIGHT then ChangeType.SWIPE_UP
      else ChangeType.SWIPE_DOWN
    (Except.ok
      { ticker := stock.ticker, new_price := newPrice, delta := delta,
        swipe_token := token.encode },
     { lockAcquired := true,
       priceEvents := [{ ticker := stock.ticker, price := newPrice,
                         change_type := changeType }],
       stockTouched := true })

/-- Serialization of the tail of a bucket list, as it appears after the
first pair inside the JSON array: `,[l,r]` repeated, then the closing
bracket, then `rest`.  Used to state parser completeness. -/
def SwipeToken.seqChars : List (Int × Int) → List Char → List Char
  | [], rest => Char.ofNat 93 :: rest
  | q :: t, rest => Char.ofNat 44 :: (SwipeToken.pairChars q ++ SwipeToken.seqChars t rest)

/-- The input does not start with a decimal digit (so a greedy digit
run ending right before it is maximal). -/
def headNotDigit : List Char → Prop
  | [] => True
  | c :: _ => c.isDigit = false

/-! ## Theorems -/

namespace SwipeToken

theorem bumpHead_length (d : SwipeDirection) (l : List (Int × Int)) :
    (bumpHead d l).length = l.length := by
  cases l with
  | nil => rfl
  | cons p rest => cases p; cases d <;> rfl

/-- One `update` call keeps the bucket-list length within
`swipe_bucket_count`, provided it started within the bound. -/
theorem update_length_le (s : Settings) (t : SwipeToken) (d : SwipeDirection)
    (now : Int) (hc : 0 < s.swipe_bucket_count)
    (h : t.buckets.length ≤ s.swipe_bucket_count) :
    (update s t d now).buckets.length ≤ s.swipe_bucket_count := by
  simp only [update]
  split_ifs <;> simp [bumpHead_length, List.length_take] <;> omega

end SwipeToken

/-- C1 (amended): for every configuration with a positive
`swipe_bucket_count` and every starting token whose bucket list is
within the bound (in particular every fresh token), after any sequence
of `update` calls with any directions and any call times the bucket
list still has length at most `swipe_bucket_count`.  (The restriction
on the starting token is necessary: `decode` does not bound the bucket
list, so a token obtained from `decode` of an arbitrary string can
exceed the bound and `update` then keeps the excess — see the
counterexample.) -/
theorem bucket_bound_invariant (s : Settings) (t : SwipeToken)
    (steps : List (SwipeDirection × Int))
    (hc : 0 < s.swipe_bucket_count)
    (h : t.buckets.length ≤ s.swipe_bucket_count) :
    (SwipeToken.applyUpdates s t steps).buckets.length ≤ s.swipe_bucket_count := by
  induction steps generalizing t with
  | nil => exact h
  | cons st rest ih =>
    simpa [SwipeToken.applyUpdates] using
      ih _ (SwipeToken.update_length_le s t st.1 st.2 hc h)

theorem bucket_bound_invariant_witness :
    0 < settings.swipe_bucket_count ∧
      ((⟨0, []⟩ : SwipeToken).buckets.length ≤ settings.swipe_bucket_count) ∧
      (SwipeToken.applyUpdates settings ⟨0, []⟩
          [(SwipeDirection.RIGHT, 5), (SwipeDirection.LEFT, 100)]).buckets.length ≤
        settings.swipe_bucket_count :=
  ⟨by decide, by decide,
    bucket_bound_invariant settings ⟨0, []⟩
      [(SwipeDirection.RIGHT, 5), (SwipeDirection.LEFT, 100)] (by decide) (by decide)⟩

set_option maxRecDepth 8000 in
/-- C1 counterexample: a 31-bucket token survives the encode/decode
round trip (decode does not enforce the bound), and an `update` whose
elapsed time is below one bucket duration leaves all 31 buckets in
place, exceeding the configured maximum of 30. -/
theorem bucket_bound_violated_by_decoded_token :
    ¬ ((SwipeToken.update settings
          (SwipeToken.decode
            (some (SwipeToken.encode ⟨0, List.replicate 31 (0, 0)⟩)) 0)
          SwipeDirection.RIGHT 0).buckets.length ≤ settings.swipe_bucket_count) := by
  decide

/-- C6: (specific) a token with `ts = t0` and single bucket `(3,2)`,
updated RIGHT at `t0 + 2 * bucket_duration`, becomes
`[(0,1), (0,0), (3,2)]` with `ts` set to the call time; (general)
whenever `buckets_to_shift = (now - ts) // bucket_duration > 0`, the
result's timestamp is `now` and its buckets are that many `(0,0)`
buckets prepended, trimmed to `swipe_bucket_count` keeping the front,
with the new swipe then recorded in bucket 0. -/
theorem shift_correctness :
    (∀ (s : Settings) (t : SwipeToken) (d : SwipeDirection) (now : Int),
      0 < s.swipe_bucket_count →
      0 < Int.fdiv (now - t.ts) s.swipe_bucket_duration →
      (SwipeToken.update s t d now).ts = now ∧
      (SwipeToken.update s t d now).buckets =
        SwipeToken.bumpHead d
          ((List.replicate (Int.fdiv (now - t.ts) s.swipe_bucket_duration).toNat
              ((0 : Int), (0 : Int)) ++ t.buckets).take s.swipe_bucket_count)) ∧
    (∀ t0 : Int,
      SwipeToken.update settings ⟨t0, [(3, 2)]⟩ SwipeDirection.RIGHT
          (t0 + 2 * settings.swipe_bucket_duration) =
        ⟨t0 + 2 * settings.swipe_bucket_duration, [(0, 1), (0, 0), (3, 2)]⟩) := by
  have hgen : ∀ (s : Settings) (t : SwipeToken) (d : SwipeDirection) (now : Int),
      0 < s.swipe_bucket_count →
      0 < Int.fdiv (now - t.ts) s.swipe_bucket_duration →
      (SwipeToken.update s t d now).ts = now ∧
      (SwipeToken.update s t d now).buckets =
        SwipeToken.bumpHead d
          ((List.replicate (Int.fdiv (now - t.ts) s.swipe_bucket_duration).toNat
              ((0 : Int), (0 : Int)) ++ t.buckets).take s.swipe_bucket_count) := by
    intro s t d now hc hpos
    have hne : ((List.replicate (Int.fdiv (now - t.ts) s.swipe_bucket_duration).toNat
        ((0 : Int), (0 : Int)) ++ t.buckets).take s.swipe_bucket_count) ≠ [] := by
      have hlen : 0 < ((List.replicate (Int.fdiv (now - t.ts) s.swipe_bucket_duration).toNat
          ((0 : Int), (0 : Int)) ++ t.buckets).take s.swipe_bucket_count).length := by
        rw [List.length_take]
        simp only [List.length_append, List.length_replicate]
        omega
      intro h0
      rw [h0] at hlen
      simp at hlen
    simp only [SwipeToken.update]
    rw [if_pos hpos, if_neg hne]
    exact ⟨rfl, rfl⟩
  refine ⟨hgen, fun t0 => ?_⟩
  have hts : t0 + 2 * settings.swipe_bucket_duration -
      (⟨t0, [(3, 2)]⟩ : SwipeToken).ts = 40 := by
    show t0 + 2 * 20 - t0 = 40
    ring
  have h := hgen settings ⟨t0, [(3, 2)]⟩ SwipeDirection.RIGHT
    (t0 + 2 * settings.swipe_bucket_duration) (by decide) (by rw [hts]; decide)
  rw [hts] at h
  obtain ⟨h1, h2⟩ := h
  have : SwipeToken.bumpHead SwipeDirection.RIGHT
      ((List.replicate ((40 : Int).fdiv settings.swipe_bucket_duration).toNat
          ((0 : Int), (0 : Int)) ++ [((3 : Int), (2 : Int))]).take
        settings.swipe_bucket_count) = [(0, 1), (0, 0), (3, 2)] := by decide
  rw [this] at h2
  cases hupd : SwipeToken.update settings ⟨t0, [(3, 2)]⟩ SwipeDirection.RIGHT
      (t0 + 2 * settings.swipe_bucket_duration) with
  | mk ts bs =>
    rw [hupd] at h1 h2
    simp only at h1 h2
    simp [h1, h2]

theorem shift_correctness_witness :
    (SwipeToken.update settings ⟨0, [(3, 2)]⟩ SwipeDirection.LEFT 45).ts = 45 ∧
    (SwipeToken.update settings ⟨0, [(3, 2)]⟩ SwipeDirection.LEFT 45).buckets =
      SwipeToken.bumpHead SwipeDirection.LEFT
        ((List.replicate (Int.fdiv (45 - (⟨0, [(3, 2)]⟩ : SwipeToken).ts)
            settings.swipe_bucket_duration).toNat ((0 : Int), (0 : Int)) ++
          (⟨0, [(3, 2)]⟩ : SwipeToken).buckets).take settings.swipe_bucket_count) :=
  shift_correctness.1 settings ⟨0, [(3, 2)]⟩ SwipeDirection.LEFT 45 (by decide) (by decide)

/-- C8 (amended): when the elapsed idle time exceeds
`bucket_duration * bucket_count`, `update` pushes out all old buckets;
the resulting token has timestamp `now` and a bucket list of exactly
`swipe_bucket_count` empty buckets with the new swipe recorded in
bucket 0 — all data other than the new swipe is gone, though the list
literally has `swipe_bucket_count` entries, not a single bucket. -/
theorem long_idle_reset (s : Settings) (t : SwipeToken) (d : SwipeDirection)
    (now : Int) (hdur : 0 < s.swipe_bucket_duration)
    (hc : 0 < s.swipe_bucket_count)
    (h : s.swipe_bucket_duration * (s.swipe_bucket_count : Int) < now - t.ts) :
    SwipeToken.update s t d now =
      ⟨now, SwipeToken.bumpHead d
        (List.replicate s.swipe_bucket_count ((0 : Int), (0 : Int)))⟩ := by
  have hcle : (s.swipe_bucket_count : Int) ≤
      Int.fdiv (now - t.ts) s.swipe_bucket_duration := by
    rw [Int.fdiv_eq_ediv _ (le_of_lt hdur), Int.le_ediv_iff_mul_le hdur]
    calc (s.swipe_bucket_count : Int) * s.swipe_bucket_duration
        = s.swipe_bucket_duration * s.swipe_bucket_count := by ring
      _ ≤ now - t.ts := le_of_lt h
  have hpos : 0 < Int.fdiv (now - t.ts) s.swipe_bucket_duration := by
    have : (0 : Int) < s.swipe_bucket_count := by exact_mod_cast hc
    omega
  have hcount_le : s.swipe_bucket_count ≤
      (Int.fdiv (now - t.ts) s.swipe_bucket_duration).toNat := by omega
  have htake : (List.replicate (Int.fdiv (now - t.ts) s.swipe_bucket_duration).toNat
      ((0 : Int), (0 : Int)) ++ t.buckets).take s.swipe_bucket_count =
      List.replicate s.swipe_bucket_count ((0 : Int), (0 : Int)) := by
    rw [List.take_append_of_le_length (by simpa using hcount_le), List.take_replicate]
    congr 1
    omega
  have hne : List.replicate s.swipe_bucket_count ((0 : Int), (0 : Int)) ≠ [] := by
    intro h0
    have := congrArg List.length h0
    simp at this
    omega
  simp only [SwipeToken.update]
  rw [if_pos hpos, htake, if_neg hne]

theorem long_idle_reset_witness :
    SwipeToken.update settings ⟨0, [(3, 2)]⟩ SwipeDirection.RIGHT 601 =
      ⟨601, SwipeToken.bumpHead SwipeDirection.RIGHT
        (List.replicate settings.swipe_bucket_count ((0 : Int), (0 : Int)))⟩ :=
  long_idle_reset settings ⟨0, [(3, 2)]⟩ SwipeDirection.RIGHT 601
    (by decide) (by decide) (by decide)

/-- C8 counterexample: with the default configuration
(`20 * 30 = 600`), a token idle for 601 seconds is not reset to a
bucket list of length 1: `update` leaves 30 buckets (29 empty ones
behind the fresh bucket holding the new swipe). -/
theorem long_idle_not_single_bucket :
    settings.swipe_bucket_duration * (settings.swipe_bucket_count : Int) <
        601 - (⟨0, [(3, 2)]⟩ : SwipeToken).ts ∧
    (SwipeToken.update settings ⟨0, [(3, 2)]⟩ SwipeDirection.RIGHT 601).buckets.length = 30 ∧
    ¬ ((SwipeToken.update settings ⟨0, [(3, 2)]⟩
        SwipeDirection.RIGHT 601).buckets.length = 1) := by
  decide


/-- C7 (amended): with the default `streak_threshold = 5`, the token
with buckets `[(0,1),(0,1),(1,1),(0,1),(0,1),(0,1)]` has an internal
streak walk of `(RIGHT, 2)` — the streak breaks at the first mixed
bucket — but since `2 < 5` the reported `streak_length` is `0` and
`streak_direction` is `none`; a token with 6 consecutive `(0,1)`
buckets is reported as `streak_direction = RIGHT`,
`streak_length = 6`. -/
theorem streak_detection :
    (SwipeToken.analyze settings
      ⟨0, [(0, 1), (0, 1), (1, 1), (0, 1), (0, 1), (0, 1)]⟩).streak_length = 0 ∧
    (SwipeToken.analyze settings
      ⟨0, [(0, 1), (0, 1), (1, 1), (0, 1), (0, 1), (0, 1)]⟩).streak_direction = none ∧
    SwipeToken.streakLoop [(0, 1), (0, 1), (1, 1), (0, 1), (0, 1), (0, 1)] none 0 =
      (some SwipeDirection.RIGHT, 2) ∧
    (SwipeToken.analyze settings
      ⟨0, [(0, 1), (0, 1), (0, 1), (0, 1), (0, 1), (0, 1)]⟩).streak_direction =
      some SwipeDirection.RIGHT ∧
    (SwipeToken.analyze settings
      ⟨0, [(0, 1), (0, 1), (0, 1), (0, 1), (0, 1), (0, 1)]⟩).streak_length = 6 := by
  decide

/-- C7 counterexample: the mixed-bucket token's reported
`streak_length` is not 2 (the internal run of 2 is below the threshold
5, so `analyze` reports 0). -/
theorem streak_below_threshold_not_reported :
    ¬ ((SwipeToken.analyze settings
        ⟨0, [(0, 1), (0, 1), (1, 1), (0, 1), (0, 1), (0, 1)]⟩).streak_length = 2) := by
  decide

namespace SwipeToken

theorem analyze_total_left (s : Settings) (t : SwipeToken) :
    (analyze s t).total_left = t.buckets.foldl (fun acc b => acc + b.1) (0 : Int) := by
  by_cases h : t.buckets = []
  · simp [analyze, h]
  · simp [analyze, h]

theorem analyze_total_right (s : Settings) (t : SwipeToken) :
    (analyze s t).total_right = t.buckets.foldl (fun acc b => acc + b.2) (0 : Int) := by
  by_cases h : t.buckets = []
  · simp [analyze, h]
  · simp [analyze, h]

theorem analyze_pickiness_eq (s : Settings) (t : SwipeToken) :
    (analyze s t).pickiness_ratio =
      if (analyze s t).total_left + (analyze s t).total_right > 0 then
        ((analyze s t).total_left : ℚ) /
          (((analyze s t).total_left + (analyze s t).total_right : Int) : ℚ)
      else 1/2 := by
  by_cases h : t.buckets = []
  · simp [analyze, h]
  · simp only [analyze, if_neg h]

/-- Folding `acc + f b` from a nonnegative start over entries with
nonnegative `f` stays nonnegative. -/
theorem foldl_add_nonneg (f : Int × Int → Int) :
    ∀ (l : List (Int × Int)) (init : Int), 0 ≤ init →
      (∀ p ∈ l, 0 ≤ f p) → 0 ≤ l.foldl (fun acc b => acc + f b) init := by
  intro l
  induction l with
  | nil => intro init h _; simpa using h
  | cons p rest ih =>
    intro init hinit hall
    simp only [List.foldl_cons]
    exact ih (init + f p)
      (add_nonneg hinit (hall p (List.mem_cons_self p rest)))
      (fun q hq => hall q (List.mem_cons_of_mem p hq))

end SwipeToken

/-- C9 (amended): for every token, `analyze`'s `pickiness_ratio`
equals `total_left / (total_left + total_right)` when that total is
positive and is exactly `1/2` when the total is zero; and whenever the
token's bucket counters are all nonnegative — as they are for every
token built by `update` from a fresh token, though not for a token
forged through `decode` — the ratio lies in `[0, 1]`. -/
theorem pickiness_bounds (s : Settings) (t : SwipeToken) :
    ((SwipeToken.analyze s t).total_left + (SwipeToken.analyze s t).total_right > 0 →
      (SwipeToken.analyze s t).pickiness_ratio =
        ((SwipeToken.analyze s t).total_left : ℚ) /
          (((SwipeToken.analyze s t).total_left +
            (SwipeToken.analyze s t).total_right : Int) : ℚ)) ∧
    ((SwipeToken.analyze s t).total_left + (SwipeToken.analyze s t).total_right = 0 →
      (SwipeToken.analyze s t).pickiness_ratio = 1/2) ∧
    ((∀ p ∈ t.buckets, 0 ≤ p.1 ∧ 0 ≤ p.2) →
      0 ≤ (SwipeToken.analyze s t).pickiness_ratio ∧
      (SwipeToken.analyze s t).pickiness_ratio ≤ 1) := by
  refine ⟨?_, ?_, ?_⟩
  · intro h
    rw [SwipeToken.analyze_pickiness_eq, if_pos h]
  · intro h
    rw [SwipeToken.analyze_pickiness_eq, if_neg (by omega)]
  · intro hnn
    have hL : 0 ≤ (SwipeToken.analyze s t).total_left := by
      rw [SwipeToken.analyze_total_left]
      exact SwipeToken.foldl_add_nonneg Prod.fst t.buckets 0 le_rfl
        (fun p hp => (hnn p hp).1)
    have hR : 0 ≤ (SwipeToken.analyze s t).total_right := by
      rw [SwipeToken.analyze_total_right]
      exact SwipeToken.foldl_add_nonneg Prod.snd t.buckets 0 le_rfl
        (fun p hp => (hnn p hp).2)
    rw [SwipeToken.analyze_pickiness_eq]
    split_ifs with h
    · have hLR : (0 : ℚ) <
          (((SwipeToken.analyze s t).total_left +
            (SwipeToken.analyze s t).total_right : Int) : ℚ) := by
        exact_mod_cast h
      constructor
      · exact div_nonneg (by exact_mod_cast hL) (le_of_lt hLR)
      · rw [div_le_one hLR]
        have hle : (SwipeToken.analyze s t).total_left ≤
            (SwipeToken.analyze s t).total_left +
              (SwipeToken.analyze s t).total_right := by omega
        exact_mod_cast hle
    · norm_num

theorem pickiness_bounds_witness :
    (SwipeToken.analyze settings ⟨0, [(1, 2)]⟩).pickiness_ratio =
      ((SwipeToken.analyze settings ⟨0, [(1, 2)]⟩).total_left : ℚ) /
        (((SwipeToken.analyze settings ⟨0, [(1, 2)]⟩).total_left +
          (SwipeToken.analyze settings ⟨0, [(1, 2)]⟩).total_right : Int) : ℚ) ∧
    0 ≤ (SwipeToken.analyze settings ⟨0, [(1, 2)]⟩).pickiness_ratio ∧
    (SwipeToken.analyze settings ⟨0, [(1, 2)]⟩).pickiness_ratio ≤ 1 :=
  ⟨(pickiness_bounds settings ⟨0, [(1, 2)]⟩).1 (by decide),
   (pickiness_bounds settings ⟨0, [(1, 2)]⟩).2.2 (by decide)⟩

/-- C9 counterexample: `decode` accepts negative bucket counters
(pydantic validates them as plain `int`s with no sign constraint), and
for the forged token with single bucket `(-1, 2)` the pickiness ratio
computed by `analyze` is `-1`, outside `[0, 1]`. -/
theorem pickiness_out_of_bounds_for_forged_token :
    (SwipeToken.analyze settings ⟨0, [(-1, 2)]⟩).pickiness_ratio = -1 ∧
    ¬ (0 ≤ (SwipeToken.analyze settings ⟨0, [(-1, 2)]⟩).pickiness_ratio ∧
       (SwipeToken.analyze settings ⟨0, [(-1, 2)]⟩).pickiness_ratio ≤ 1) := by
  constructor
  · norm_num [SwipeToken.analyze]
  · norm_num [SwipeToken.analyze]

/-- C4 (amended): for every nonnegative price, every `SwipeStats`
value, and random draws within the configured ranges (any
configuration whose minima and streak penalty are nonnegative, as the
defaults are), `calculate_price_delta` is `≤ 0` for LEFT and `≥ 0` for
RIGHT.  The restriction to nonnegative prices is forced: for a
negative price the signs flip (see the counterexample), though the
caller clamps stored prices at 0 so negative prices do not arise in
the system. -/
theorem delta_sign_law (s : Settings) (price : ℚ) (stats : SwipeStats)
    (bp rm : ℚ)
    (hprice : 0 ≤ price)
    (hbp1 : s.swipe_base_percent_min ≤ bp) (hbp2 : bp ≤ s.swipe_base_percent_max)
    (hrm1 : s.swipe_random_multiplier_min ≤ rm) (hrm2 : rm ≤ s.swipe_random_multiplier_max)
    (hmin : 0 ≤ s.swipe_base_percent_min) (hrmin : 0 ≤ s.swipe_random_multiplier_min)
    (hpen : 0 ≤ s.swipe_streak_penalty) :
    calculate_price_delta s price SwipeDirection.LEFT stats bp rm ≤ 0 ∧
    0 ≤ calculate_price_delta s price SwipeDirection.RIGHT stats bp rm := by
  have hbp0 : 0 ≤ bp := le_trans hmin hbp1
  have hrm0 : 0 ≤ rm := le_trans hrmin hrm1
  have hpr : 0 ≤ price * bp * rm := mul_nonneg (mul_nonneg hprice hbp0) hrm0
  have key : ∀ sm pm : ℚ, 0 ≤ sm → 0 ≤ pm → 0 ≤ price * bp * rm * sm * pm := by
    intro sm pm hsm hpm
    exact mul_nonneg (mul_nonneg hpr hsm) hpm
  constructor
  · simp only [calculate_price_delta,
      eq_false (by decide : ¬(SwipeDirection.LEFT = SwipeDirection.RIGHT)),
      eq_true (rfl : SwipeDirection.LEFT = SwipeDirection.LEFT),
      false_and, true_and, if_false, if_true]
    refine neg_nonpos.mpr (key _ _ ?_ ?_)
    · split_ifs
      · exact hpen
      · exact zero_le_one
    · split_ifs with h2
      · linarith
      · exact zero_le_one
  · simp only [calculate_price_delta,
      eq_false (by decide : ¬(SwipeDirection.RIGHT = SwipeDirection.LEFT)),
      eq_true (rfl : SwipeDirection.RIGHT = SwipeDirection.RIGHT),
      false_and, true_and, if_false, if_true]
    refine key _ _ ?_ ?_
    · split_ifs
      · exact hpen
      · exact zero_le_one
    · split_ifs with h2
      · linarith
      · exact zero_le_one

theorem delta_sign_law_witness :
    calculate_price_delta settings 100 SwipeDirection.LEFT {} (1/50) 1 ≤ 0 ∧
    0 ≤ calculate_price_delta settings 100 SwipeDirection.RIGHT {} (1/50) 1 :=
  delta_sign_law settings 100 {} (1/50) 1 (by norm_num) (by norm_num [settings])
    (by norm_num [settings]) (by norm_num [settings]) (by norm_num [settings])
    (by norm_num [settings]) (by norm_num [settings]) (by norm_num [settings])

/-- C4 counterexample: at the negative price `-1`, with draws inside
the configured default ranges (`base_percent = 1/50 ∈ [0.01, 0.03]`,
`random_multiplier = 1 ∈ [0.5, 2]`) and fresh stats, a LEFT swipe's
delta is `+1/50 > 0`, violating the claimed `≤ 0`. -/
theorem delta_sign_violated_for_negative_price :
    settings.swipe_base_percent_min ≤ 1/50 ∧
    (1/50 : ℚ) ≤ settings.swipe_base_percent_max ∧
    settings.swipe_random_multiplier_min ≤ 1 ∧
    (1 : ℚ) ≤ settings.swipe_random_multiplier_max ∧
    ¬ (calculate_price_delta settings (-1) SwipeDirection.LEFT {} (1/50) 1 ≤ 0) := by
  refine ⟨by norm_num [settings], by norm_num [settings], by norm_num [settings],
    by norm_num [settings], ?_⟩
  norm_num [calculate_price_delta, settings,
    eq_false (by decide : ¬((none : Option SwipeDirection) = some SwipeDirection.LEFT))]

/-- C5 (amended): a swipe on a ticker absent from the stock table is
surfaced to the caller as a 404 not-found error, appends no price
event and writes no stock row — but, contrary to the claim's "does not
acquire the per-ticker gate", the per-ticker lock IS acquired (and a
lock entry created) before the existence check: in the source the 404
is raised inside the `async with lock` block. -/
theorem unknown_ticker_404 (db : String → Option Stock) (req : SwipeRequest)
    (now : Int) (bp rm : ℚ) (h : db req.ticker = none) :
    (swipe db req now bp rm).1 = Except.error 404 ∧
    (swipe db req now bp rm).2.priceEvents = [] ∧
    (swipe db req now bp rm).2.stockTouched = false ∧
    (swipe db req now bp rm).2.lockAcquired = true := by
  simp [swipe, h]

theorem unknown_ticker_404_witness :
    (swipe (fun _ => none) ⟨"ZZZZ", SwipeDirection.LEFT, none⟩ 0 (1/50) 1).1 =
      Except.error 404 ∧
    (swipe (fun _ => none) ⟨"ZZZZ", SwipeDirection.LEFT, none⟩ 0 (1/50) 1).2.priceEvents = [] ∧
    (swipe (fun _ => none) ⟨"ZZZZ", SwipeDirection.LEFT, none⟩ 0 (1/50) 1).2.stockTouched
      = false ∧
    (swipe (fun _ => none) ⟨"ZZZZ", SwipeDirection.LEFT, none⟩ 0 (1/50) 1).2.lockAcquired
      = true :=
  unknown_ticker_404 (fun _ => none) ⟨"ZZZZ", SwipeDirection.LEFT, none⟩ 0 (1/50) 1 rfl

/-- C5 counterexample: on an unknown ticker the handler does return
404, but the per-ticker gate is acquired: `lockAcquired` is not
`false`, refuting the claim's "does not acquire the per-ticker
gate". -/
theorem unknown_ticker_acquires_gate :
    (swipe (fun _ => none) ⟨"QQQQ", SwipeDirection.RIGHT, none⟩ 7 (1/50) 1).1 =
      Except.error 404 ∧
    ¬ ((swipe (fun _ => none) ⟨"QQQQ", SwipeDirection.RIGHT, none⟩ 7
        (1/50) 1).2.lockAcquired = false) := by
  constructor
  · simp [swipe]
  · simp [swipe]

/-- C10: at price 0 the price delta is exactly 0 for every direction,
every stats value and every random draw (the base delta is
`0 * base_percent`), and consequently a stock whose current price is 0
records a price event at exactly `max 0 (0 + 0) = 0` on every swipe —
the price can never move away from 0 through swipes (in the source the
stock's current price is the price of its most recent event). -/
theorem zero_price_absorbing :
    (∀ (d : SwipeDirection) (stats : SwipeStats) (bp rm : ℚ),
      calculate_price_delta settings 0 d stats bp rm = 0) ∧
    (∀ (db : String → Option Stock) (req : SwipeRequest) (now : Int) (bp rm : ℚ)
        (stock : Stock), db req.ticker = some stock → stock.price = 0 →
      (swipe db req now bp rm).2.priceEvents =
        [{ ticker := stock.ticker, price := 0,
           change_type := if req.direction = SwipeDirection.RIGHT then ChangeType.SWIPE_UP
             else ChangeType.SWIPE_DOWN }]) := by
  have hzero : ∀ (d : SwipeDirection) (stats : SwipeStats) (bp rm : ℚ),
      calculate_price_delta settings 0 d stats bp rm = 0 := by
    intro d stats bp rm
    simp only [calculate_price_delta, zero_mul]
    split_ifs <;> norm_num
  refine ⟨hzero, ?_⟩
  intro db req now bp rm stock hdb hprice
  simp only [swipe, hdb, hprice, hzero]
  norm_num

theorem zero_price_absorbing_witness :
    (swipe (fun _ => some ⟨"ABCD", 0⟩) ⟨"ABCD", SwipeDirection.RIGHT, none⟩ 0
        (1/50) 1).2.priceEvents =
      [{ ticker := "ABCD", price := 0, change_type := ChangeType.SWIPE_UP }] := by
  have h := zero_price_absorbing.2 (fun _ => some ⟨"ABCD", 0⟩)
    ⟨"ABCD", SwipeDirection.RIGHT, none⟩ 0 (1/50) 1 ⟨"ABCD", 0⟩ rfl rfl
  simpa using h

namespace SwipeToken

theorem digitChar_isDigit : ∀ d : Fin 10, (digitChar d).isDigit = true := by decide

theorem digitChar_toNat : ∀ d : Fin 10, (digitChar d).toNat = 48 + d := by decide

theorem digitChar_ne_minus : ∀ d : Fin 10, digitChar d ≠ Char.ofNat 45 := by decide

theorem digitChar_ascii : ∀ d : Fin 10, (digitChar d).toNat < 128 := by decide

theorem natFromDigits_append_digit (ds : List Char) (c : Char) :
    natFromDigits (ds ++ [c]) = natFromDigits ds * 10 + (c.toNat - 48) := by
  simp [natFromDigits, List.foldl_append]

theorem natDigitsAux_spec : ∀ (fuel n : Nat), n < fuel →
    natDigitsAux fuel n ≠ [] ∧
    (∀ c ∈ natDigitsAux fuel n, ∃ d : Fin 10, c = digitChar d) ∧
    natFromDigits (natDigitsAux fuel n) = n := by
  intro fuel
  induction fuel with
  | zero => intro n h; omega
  | succ f ih =>
    intro n h
    by_cases h10 : n < 10
    · simp only [natDigitsAux, if_pos h10]
      refine ⟨by simp, ?_, ?_⟩
      · intro c hc
        simp only [List.mem_singleton] at hc
        exact ⟨⟨n, h10⟩, by simp [hc]⟩
      · have := digitChar_toNat ⟨n, h10⟩
        simp only [Fin.val_mk] at this
        simp [natFromDigits, this]
    · simp only [natDigitsAux, if_neg h10]
      have hdiv : n / 10 < f := by omega
      obtain ⟨hne, hdig, hval⟩ := ih (n / 10) hdiv
      refine ⟨by simp [hne], ?_, ?_⟩
      · intro c hc
        rcases List.mem_append.mp hc with hc | hc
        · exact hdig c hc
        · simp only [List.mem_singleton] at hc
          exact ⟨⟨n % 10, by omega⟩, by simp [hc]⟩
      · rw [natFromDigits_append_digit, hval]
        have := digitChar_toNat ⟨n % 10, by omega⟩
        simp only [Fin.val_mk] at this
        rw [this]
        omega

theorem natDigits_spec (n : Nat) :
    natDigits n ≠ [] ∧
    (∀ c ∈ natDigits n, ∃ d : Fin 10, c = digitChar d) ∧
    natFromDigits (natDigits n) = n :=
  natDigitsAux_spec (n + 1) n (by omega)

theorem takeDigits_append (ds rest : List Char)
    (hds : ∀ c ∈ ds, c.isDigit = true) (hrest : headNotDigit rest) :
    takeDigits (ds ++ rest) = (ds, rest) := by
  induction ds with
  | nil =>
    cases rest with
    | nil => rfl
    | cons c cs =>
      have : c.isDigit = false := hrest
      simp [takeDigits, this]
  | cons c cs ih =>
    have hc : c.isDigit = true := hds c (List.mem_cons_self c cs)
    simp [takeDigits, hc, ih (fun x hx => hds x (List.mem_cons_of_mem c hx))]

theorem parseNum_complete (n : Nat) (rest : List Char) (hrest : headNotDigit rest) :
    parseNum (natDigits n ++ rest) = some (n, rest) := by
  obtain ⟨hne, hdig, hval⟩ := natDigits_spec n
  have hall : ∀ c ∈ natDigits n, c.isDigit = true := by
    intro c hc
    obtain ⟨d, hd⟩ := hdig c hc
    rw [hd]
    exact digitChar_isDigit d
  unfold parseNum
  rw [takeDigits_append (natDigits n) rest hall hrest]
  rcases hnn : natDigits n with _ | ⟨c, cs⟩
  · exact absurd hnn hne
  · simp only
    rw [← hnn, hval]

theorem parseInt_complete (i : Int) (rest : List Char) (hrest : headNotDigit rest) :
    parseInt (intChars i ++ rest) = some (i, rest) := by
  by_cases hneg : i < 0
  · simp only [intChars, if_pos hneg, List.cons_append, parseInt]
    rw [if_pos (by trivial), parseNum_complete i.natAbs rest hrest,
      Option.map_some']
    have habs : -(i.natAbs : Int) = i := by omega
    rw [habs]
  · simp only [intChars, if_neg hneg]
    obtain ⟨hne, hdig, hval⟩ := natDigits_spec i.toNat
    rcases hnn : natDigits i.toNat with _ | ⟨c, cs⟩
    · exact absurd hnn hne
    · simp only [List.cons_append, parseInt]
      have hc : ¬(c = Char.ofNat 45) := by
        obtain ⟨d, hd⟩ := hdig c (by rw [hnn]; exact List.mem_cons_self c cs)
        rw [hd]
        exact digitChar_ne_minus d
      rw [if_neg hc, ← List.cons_append, ← hnn,
        parseNum_complete i.toNat rest hrest, Option.map_some']
      have htn : ((i.toNat : Nat) : Int) = i := by omega
      rw [htn]

theorem headNotDigit_cons {c : Char} (l : List Char) (h : c.isDigit = false) :
    headNotDigit (c :: l) := h

theorem parsePair_complete (p : Int × Int) (X : List Char) :
    parsePair (pairChars p ++ X) = some (p, X) := by
  obtain ⟨a, b⟩ := p
  have hsh : pairChars (a, b) ++ X =
      Char.ofNat 91 :: (intChars a ++
        (Char.ofNat 44 :: (intChars b ++ (Char.ofNat 93 :: X)))) := by
    simp [pairChars]
  rw [hsh]
  simp [parsePair,
    parseInt_complete a (Char.ofNat 44 :: (intChars b ++ (Char.ofNat 93 :: X)))
      (headNotDigit_cons _ (by decide)),
    parseInt_complete b (Char.ofNat 93 :: X) (headNotDigit_cons _ (by decide))]

theorem pairsChars_append_eq : ∀ (ps : List (Int × Int)) (p : Int × Int)
    (rest : List Char),
    pairsChars (p :: ps) ++ Char.ofNat 93 :: rest = pairChars p ++ seqChars ps rest := by
  intro ps
  induction ps with
  | nil => intro p rest; simp [pairsChars, seqChars]
  | cons q t ih =>
    intro p rest
    show (pairChars p ++ Char.ofNat 44 :: pairsChars (q :: t)) ++ Char.ofNat 93 :: rest =
      pairChars p ++ Char.ofNat 44 :: (pairChars q ++ seqChars t rest)
    rw [← ih q rest]
    simp

theorem parsePairSeq_complete : ∀ (tail : List (Int × Int)) (p : Int × Int)
    (rest : List Char) (fuel : Nat), (seqChars tail rest).length ≤ fuel →
    parsePairSeq fuel p (seqChars tail rest) = some (p :: tail, rest) := by
  intro tail
  induction tail with
  | nil =>
    intro p rest fuel hf
    cases fuel with
    | zero => rfl
    | succ f => rfl
  | cons q t ih =>
    intro p rest fuel hf
    simp only [seqChars] at hf ⊢
    cases fuel with
    | zero =>
      exfalso
      simp only [List.length_cons] at hf
      omega
    | succ f =>
      simp only [parsePairSeq]
      rw [if_neg (by decide : ¬(Char.ofNat 44 = Char.ofNat 93)),
        if_pos (by trivial), parsePair_complete q (seqChars t rest)]
      have hlen : (seqChars t rest).length ≤ f := by
        simp only [List.length_cons, List.length_append] at hf
        omega
      simp [ih q rest f hlen]

theorem parseBuckets_complete (ps : List (Int × Int)) (rest : List Char) :
    parseBuckets (pairsChars ps ++ Char.ofNat 93 :: rest) = some (ps, rest) := by
  cases ps with
  | nil =>
    simp [pairsChars, parseBuckets]
  | cons p tail =>
    rw [pairsChars_append_eq tail p rest]
    have hsh : pairChars p ++ seqChars tail rest =
        Char.ofNat 91 :: ((intChars p.1 ++
          Char.ofNat 44 :: (intChars p.2 ++ [Char.ofNat 93])) ++ seqChars tail rest) := by
      simp [pairChars]
    rw [hsh]
    simp only [parseBuckets]
    rw [if_neg (by decide : ¬(Char.ofNat 91 = Char.ofNat 93)), ← hsh,
      parsePair_complete p (seqChars tail rest)]
    simp [parsePairSeq_complete tail p rest (seqChars tail rest).length le_rfl]

theorem parseLit_complete : ∀ (l X : List Char), parseLit l (l ++ X) = some X := by
  intro l
  induction l with
  | nil => intro X; rfl
  | cons c cs ih => intro X; simp [parseLit, ih X]

theorem parseToken_complete (t : SwipeToken) : parseToken (jsonChars t) = some t := by
  obtain ⟨ts, bs⟩ := t
  have hcomma : litBuckets = Char.ofNat 44 :: ("\"buckets\":[" : String).data := by decide
  have hbrack : litBracketBrace = Char.ofNat 93 :: litBrace := by decide
  have hjson : jsonChars ⟨ts, bs⟩ =
      litTs ++ (intChars ts ++ (litBuckets ++ (pairsChars bs ++ litBracketBrace))) := by
    simp [jsonChars]
  have h1 : headNotDigit (litBuckets ++ (pairsChars bs ++ litBracketBrace)) := by
    rw [hcomma]
    exact headNotDigit_cons _ (by decide)
  have hne2 : (litBuckets ++ (pairsChars bs ++ litBracketBrace)) ≠ litBrace := by
    rw [hcomma, show litBrace = [Char.ofNat 125] from by decide]
    intro h
    have := congrArg List.length h
    simp at this
  rw [hjson]
  simp only [parseToken, Option.bind_eq_bind]
  rw [parseLit_complete, Option.some_bind,
    parseInt_complete ts (litBuckets ++ (pairsChars bs ++ litBracketBrace)) h1,
    Option.some_bind, if_neg hne2, parseLit_complete, Option.some_bind, hbrack,
    parseBuckets_complete bs litBrace, Option.some_bind, if_pos rfl]

end SwipeToken

namespace SwipeToken

theorem sextetVal_sextetChar : ∀ n : Fin 64, sextetVal (sextetChar n) = some n := by
  decide

theorem sextetChar_ne_eq : ∀ n : Fin 64, sextetChar n ≠ '=' := by decide

theorem b64decode_encode : ∀ (bs : List Nat), (∀ x ∈ bs, x < 256) →
    b64decode (b64encode bs) = some bs := by
  intro bs
  induction bs using b64encode.induct with
  | case1 => intro _; rfl
  | case2 a =>
    intro h
    have ha : a < 256 := h a (by simp)
    have h1 : sextetVal (sextetChar (a / 4)) = some (a / 4) := by
      simpa using sextetVal_sextetChar ⟨a / 4, by omega⟩
    have h2 : sextetVal (sextetChar (a % 4 * 16)) = some (a % 4 * 16) := by
      simpa using sextetVal_sextetChar ⟨a % 4 * 16, by omega⟩
    simp only [b64encode, b64decode]
    rw [if_pos (by simp), h1, h2]
    simp only [Option.pure_def, Option.bind_eq_bind, Option.some_bind]
    have harith : a / 4 * 4 + a % 4 * 16 / 16 = a := by omega
    rw [harith]
  | case3 a b =>
    intro h
    have ha : a < 256 := h a (by simp)
    have hb : b < 256 := h b (by simp)
    have h1 : sextetVal (sextetChar (a / 4)) = some (a / 4) := by
      simpa using sextetVal_sextetChar ⟨a / 4, by omega⟩
    have h2 : sextetVal (sextetChar (a % 4 * 16 + b / 16)) =
        some (a % 4 * 16 + b / 16) := by
      simpa using sextetVal_sextetChar ⟨a % 4 * 16 + b / 16, by omega⟩
    have h3 : sextetVal (sextetChar (b % 16 * 4)) = some (b % 16 * 4) := by
      simpa using sextetVal_sextetChar ⟨b % 16 * 4, by omega⟩
    have hne3 : sextetChar (b % 16 * 4) ≠ '=' := sextetChar_ne_eq ⟨b % 16 * 4, by omega⟩
    simp only [b64encode, b64decode]
    rw [if_neg (fun hcon => hne3 hcon.2.1), if_pos (by simp), h1, h2, h3]
    simp only [Option.pure_def, Option.bind_eq_bind, Option.some_bind]
    have e1 : a / 4 * 4 + (a % 4 * 16 + b / 16) / 16 = a := by omega
    have e2 : (a % 4 * 16 + b / 16) % 16 * 16 + b % 16 * 4 / 4 = b := by omega
    rw [e1, e2]
  | case4 a b c rest ih =>
    intro h
    have ha : a < 256 := h a (by simp)
    have hb : b < 256 := h b (by simp)
    have hc : c < 256 := h c (by simp)
    have h1 : sextetVal (sextetChar (a / 4)) = some (a / 4) := by
      simpa using sextetVal_sextetChar ⟨a / 4, by omega⟩
    have h2 : sextetVal (sextetChar (a % 4 * 16 + b / 16)) =
        some (a % 4 * 16 + b / 16) := by
      simpa using sextetVal_sextetChar ⟨a % 4 * 16 + b / 16, by omega⟩
    have h3 : sextetVal (sextetChar (b % 16 * 4 + c / 64)) =
        some (b % 16 * 4 + c / 64) := by
      simpa using sextetVal_sextetChar ⟨b % 16 * 4 + c / 64, by omega⟩
    have h4 : sextetVal (sextetChar (c % 64)) = some (c % 64) := by
      simpa using sextetVal_sextetChar ⟨c % 64, by omega⟩
    have hne3 : sextetChar (b % 16 * 4 + c / 64) ≠ '=' :=
      sextetChar_ne_eq ⟨b % 16 * 4 + c / 64, by omega⟩
    have hne4 : sextetChar (c % 64) ≠ '=' := sextetChar_ne_eq ⟨c % 64, by omega⟩
    have htail := ih (fun x hx => h x (by simp [hx]))
    simp only [b64encode, b64decode]
    rw [if_neg (fun hcon => hne3 hcon.2.1), if_neg (fun hcon => hne4 hcon.2),
      h1, h2, h3, h4]
    simp only [Option.pure_def, Option.bind_eq_bind, Option.some_bind]
    rw [htail]
    simp only [Option.some_bind]
    have e1 : a / 4 * 4 + (a % 4 * 16 + b / 16) / 16 = a := by omega
    have e2 : (a % 4 * 16 + b / 16) % 16 * 16 + (b % 16 * 4 + c / 64) / 4 = b := by
      omega
    have e3 : (b % 16 * 4 + c / 64) % 4 * 64 + c % 64 = c := by omega
    rw [e1, e2, e3]

end SwipeToken

namespace SwipeToken

theorem intChars_ascii (i : Int) : ∀ c ∈ intChars i, c.toNat < 256 := by
  intro c hc
  unfold intChars at hc
  split_ifs at hc with h
  · rcases List.mem_cons.mp hc with hc | hc
    · rw [hc]; decide
    · obtain ⟨d, hd⟩ := (natDigits_spec i.natAbs).2.1 c hc
      rw [hd]
      have := digitChar_ascii d
      omega
  · obtain ⟨d, hd⟩ := (natDigits_spec i.toNat).2.1 c hc
    rw [hd]
    have := digitChar_ascii d
    omega

theorem pairChars_ascii (p : Int × Int) : ∀ c ∈ pairChars p, c.toNat < 256 := by
  intro c hc
  simp only [pairChars, List.mem_cons, List.mem_append, List.mem_singleton] at hc
  rcases hc with hc | hc | hc | hc | hc | hc
  · rw [hc]; decide
  · exact intChars_ascii p.1 c hc
  · rw [hc]; decide
  · exact intChars_ascii p.2 c hc
  · rw [hc]; decide
  · simp at hc

theorem pairsChars_ascii : ∀ (ps : List (Int × Int)), ∀ c ∈ pairsChars ps, c.toNat < 256 := by
  intro ps
  induction ps with
  | nil => intro c hc; simp [pairsChars] at hc
  | cons p t ih =>
    intro c hc
    cases t with
    | nil => exact pairChars_ascii p c hc
    | cons q t2 =>
      have hsh : pairsChars (p :: q :: t2) =
          pairChars p ++ Char.ofNat 44 :: pairsChars (q :: t2) := rfl
      rw [hsh] at hc
      rcases List.mem_append.mp hc with hc | hc
      · exact pairChars_ascii p c hc
      · rcases List.mem_cons.mp hc with hc | hc
        · rw [hc]; decide
        · exact ih c hc

theorem jsonChars_ascii (t : SwipeToken) : ∀ c ∈ jsonChars t, c.toNat < 256 := by
  intro c hc
  simp only [jsonChars, List.mem_append] at hc
  rcases hc with ((((hc | hc) | hc) | hc) | hc)
  · exact (by decide : ∀ c ∈ litTs, c.toNat < 256) c hc
  · exact intChars_ascii t.ts c hc
  · exact (by decide : ∀ c ∈ litBuckets, c.toNat < 256) c hc
  · exact pairsChars_ascii t.buckets c hc
  · exact (by decide : ∀ c ∈ litBracketBrace, c.toNat < 256) c hc

theorem map_ofNat_toNat : ∀ (l : List Char), (l.map Char.toNat).map Char.ofNat = l := by
  intro l
  induction l with
  | nil => rfl
  | cons c cs ih => simp [ih, Char.ofNat_toNat]

theorem encode_ne_empty (t : SwipeToken) : encode t ≠ "" := by
  intro h
  have hdata : b64encode ((jsonChars t).map Char.toNat) = [] := congrArg String.data h
  rcases hmap : (jsonChars t).map Char.toNat with _ | ⟨x, xs⟩
  · have hjn : jsonChars t = [] := by
      rcases hj : jsonChars t with _ | _
      · rfl
      · rw [hj] at hmap; simp at hmap
    have hlen := congrArg List.length hjn
    have h6 : litTs.length = 6 := by decide
    simp [jsonChars, List.length_append, h6] at hlen
  · rw [hmap] at hdata
    rcases xs with _ | ⟨y, ys⟩
    · simp [b64encode] at hdata
    · rcases ys with _ | ⟨z, zs⟩
      · simp [b64encode] at hdata
      · simp [b64encode] at hdata

end SwipeToken

/-- C2: for every token (any timestamp, any bucket list, negative
values included), `decode (encode t)` returns exactly `t`: the
timestamp and every `(left, right)` bucket pair are preserved. -/
theorem decode_encode_roundtrip (t : SwipeToken) (now : Int) :
    SwipeToken.decode (some (SwipeToken.encode t)) now = t := by
  have hbytes : ∀ x ∈ (SwipeToken.jsonChars t).map Char.toNat, x < 256 := by
    intro x hx
    obtain ⟨c, hc, rfl⟩ := List.mem_map.mp hx
    exact SwipeToken.jsonChars_ascii t c hc
  have hb64 := SwipeToken.b64decode_encode ((SwipeToken.jsonChars t).map Char.toNat) hbytes
  simp only [SwipeToken.decode]
  rw [if_neg (SwipeToken.encode_ne_empty t)]
  have hdata : (SwipeToken.encode t).data =
      SwipeToken.b64encode ((SwipeToken.jsonChars t).map Char.toNat) := rfl
  rw [hdata, hb64]
  simp only [SwipeToken.map_ofNat_toNat, SwipeToken.parseToken_complete t]

/-- C3: `decode` is total (the source catches `ValueError`, which
covers `binascii.Error`, and `ValidationError`, the only exceptions its
body can raise), and for an absent token, an empty string, or any
string on which base64 decoding or token validation fails, it returns
a fresh token: empty bucket list, timestamp = the current time. -/
theorem decode_fresh_on_garbage :
    (∀ now : Int, SwipeToken.decode none now = ⟨now, []⟩) ∧
    (∀ now : Int, SwipeToken.decode (some "") now = ⟨now, []⟩) ∧
    (∀ (str : String) (now : Int),
      ((SwipeToken.b64decode str.data).bind
        (fun bytes => SwipeToken.parseToken (bytes.map Char.ofNat))) = none →
      SwipeToken.decode (some str) now = ⟨now, []⟩) := by
  refine ⟨fun now => rfl, fun now => rfl, ?_⟩
  intro str now h
  simp only [SwipeToken.decode]
  by_cases hs : str = ""
  · rw [if_pos hs]
  · rw [if_neg hs]
    rcases hb : SwipeToken.b64decode str.data with _ | bytes
    · rfl
    · rw [hb] at h
      simp only [Option.some_bind] at h
      simp [h]

theorem decode_fresh_on_garbage_witness :
    SwipeToken.decode none 7 = ⟨7, []⟩ ∧
    SwipeToken.decode (some "") 7 = ⟨7, []⟩ ∧
    SwipeToken.decode (some "!!!!") 99 = ⟨99, []⟩ :=
  ⟨decode_fresh_on_garbage.1 7, decode_fresh_on_garbage.2.1 7,
   decode_fresh_on_garbage.2.2 "!!!!" 99 (by decide)⟩
